import Mathlib

/-!
Verification development for the conversation-history core of a
conversational-agent client: the token accountant, the history compactor
(autosave truncation), and the OpenAI-style protocol adapter
(outbound request rendering and inbound streamed-response reassembly).

The definitions are a shallow embedding of the TypeScript source
(packages/core/src/utils/autosave.ts and
packages/core/src/utils/openai-converters.ts).  JavaScript numbers are
embedded as exact fractions (structure JsNumber below); JavaScript
exceptions are embedded as Except.error; the module-global streaming
accumulator is embedded as explicit state passing, so that one can state
which state the source threads through consecutive calls.
-/

namespace GeminiCliHooks

/-- A JSON scalar value, as stored in functionCall args and
functionResponse response mappings.  The compactor only inspects
top-level string values of these mappings, so scalars suffice. -/
inductive JValue where
  | str (s : String)
  | num (n : Int)
deriving DecidableEq

/-- A model-issued tool invocation, with its correlation id.
Mappings are embedded as ordered key-value lists. -/
structure FunctionCall where
  id : String
  name : String
  args : List (String × JValue)
deriving DecidableEq

/-- A tool result, correlated to a FunctionCall by id. -/
structure FunctionResponse where
  id : String
  name : String
  response : List (String × JValue)
deriving DecidableEq

/-- One content part of a turn: exactly one of text, binary payload,
tool call, or tool result. -/
inductive Part where
  | text (s : String)
  | inlineData
  | functionCall (fc : FunctionCall)
  | functionResponse (fr : FunctionResponse)
deriving DecidableEq

/-- One turn of the conversation history.  The parts field is optional
in the source (genai Content), and the compactor branches on its
presence, so it is embedded as an Option. -/
structure Content where
  role : String
  parts : Option (List Part)
deriving DecidableEq

/-- JSON string quoting as used by JSON.stringify on the plain ASCII
strings of this development (escape sequences are not modelled). -/
def quoteJson (s : String) : String := "\"" ++ s ++ "\""

/-- Serialization of a JSON scalar. -/
def JValue.toJsonString : JValue → String
  | .str s => quoteJson s
  | .num n => toString n

/-- Serialization of a key-value mapping, as JSON.stringify renders a
plain object. -/
def stringifyPairs (kvs : List (String × JValue)) : String :=
  "\x7b" ++ String.intercalate "," (kvs.map (fun kv => quoteJson kv.1 ++ ":" ++ kv.2.toJsonString)) ++ "\x7d"

/-- JSON.stringify of a functionCall part, with the field order of the
source objects. -/
def serializeFunctionCall (fc : FunctionCall) : String :=
  "\x7b" ++ quoteJson "id" ++ ":" ++ quoteJson fc.id ++ ","
    ++ quoteJson "name" ++ ":" ++ quoteJson fc.name ++ ","
    ++ quoteJson "args" ++ ":" ++ stringifyPairs fc.args ++ "\x7d"

/-- JSON.stringify of a functionResponse part. -/
def serializeFunctionResponse (fr : FunctionResponse) : String :=
  "\x7b" ++ quoteJson "id" ++ ":" ++ quoteJson fr.id ++ ","
    ++ quoteJson "name" ++ ":" ++ quoteJson fr.name ++ ","
    ++ quoteJson "response" ++ ":" ++ stringifyPairs fr.response ++ "\x7d"

/-- Modelled from the spec: the token accountant (counttokens.ts is not
under src/; its contract is spec section 4.1 and the inline copy in the
earlier autosave iteration).  The byte-pair tokenizer itself is an
external library, so it is a parameter tc; text is measured by tc,
inlineData is a fixed 1066-token unit, functionCall and functionResponse
are measured by tokenizing their serialized form, and unknown shapes
cost 0. -/
def countTokensInPart (tc : String → Nat) : Part → Nat
  | .text s => tc s
  | .inlineData => 1066
  | .functionCall fc => tc (serializeFunctionCall fc)
  | .functionResponse fr => tc (serializeFunctionResponse fr)

/-- Modelled from the spec: per-turn cost is the role-label cost plus
the sum of the part costs. -/
def countContentTokens (tc : String → Nat) (c : Content) : Nat :=
  tc c.role + ((c.parts.getD []).map (countTokensInPart tc)).sum

/-- Modelled from the spec: per-history cost is the sum of the turn
costs. -/
def countHistoryTokens (tc : String → Nat) (h : List Content) : Nat :=
  (h.map (countContentTokens tc)).sum

/-- A JavaScript number, embedded as an exact fraction so that the
budget arithmetic of the compactor (which multiplies a token threshold
by a fractional ratio and subtracts running totals) is executable and
exact.  The denominator is intended positive; JsNumber.wf states it. -/
structure JsNumber where
  num : Int
  den : Nat
deriving DecidableEq

/-- Wellformedness of an embedded number: positive denominator. -/
def JsNumber.wf (a : JsNumber) : Prop := 0 < a.den

instance (a : JsNumber) : Decidable a.wf := by unfold JsNumber.wf; infer_instance

/-- Embed a natural number. -/
def jsNat (n : Nat) : JsNumber := ⟨n, 1⟩

/-- Exact addition of fractions. -/
def JsNumber.add (a b : JsNumber) : JsNumber :=
  ⟨a.num * b.den + b.num * a.den, a.den * b.den⟩

/-- Exact subtraction of fractions. -/
def JsNumber.sub (a b : JsNumber) : JsNumber :=
  ⟨a.num * b.den - b.num * a.den, a.den * b.den⟩

/-- Exact multiplication of fractions. -/
def JsNumber.mul (a b : JsNumber) : JsNumber :=
  ⟨a.num * b.num, a.den * b.den⟩

/-- Comparison a ≤ b by cross multiplication (valid for positive
denominators). -/
def JsNumber.ble (a b : JsNumber) : Bool :=
  a.num * b.den ≤ b.num * a.den

/-- Comparison a < b by cross multiplication. -/
def JsNumber.blt (a b : JsNumber) : Bool :=
  a.num * b.den < b.num * a.den

/-- JavaScript truthiness of a number: false exactly at 0. -/
def JsNumber.truthy (a : JsNumber) : Bool := a.num ≠ 0

/-- The rational value of an embedded number. -/
def JsNumber.toQ (a : JsNumber) : ℚ := (a.num : ℚ) / (a.den : ℚ)

theorem JsNumber.wf_add {a b : JsNumber} (ha : a.wf) (hb : b.wf) : (a.add b).wf :=
  Nat.mul_pos ha hb

theorem JsNumber.wf_sub {a b : JsNumber} (ha : a.wf) (hb : b.wf) : (a.sub b).wf :=
  Nat.mul_pos ha hb

theorem JsNumber.wf_mul {a b : JsNumber} (ha : a.wf) (hb : b.wf) : (a.mul b).wf :=
  Nat.mul_pos ha hb

theorem JsNumber.wf_jsNat (n : Nat) : (jsNat n).wf := Nat.one_pos

theorem JsNumber.toQ_jsNat (n : Nat) : (jsNat n).toQ = (n : ℚ) := by
  simp [JsNumber.toQ, jsNat]

theorem JsNumber.toQ_add {a b : JsNumber} (ha : a.wf) (hb : b.wf) :
    (a.add b).toQ = a.toQ + b.toQ := by
  have ha' : ((a.den : ℚ)) ≠ 0 := by exact_mod_cast Nat.pos_iff_ne_zero.mp ha
  have hb' : ((b.den : ℚ)) ≠ 0 := by exact_mod_cast Nat.pos_iff_ne_zero.mp hb
  field_simp [JsNumber.toQ, JsNumber.add]

theorem JsNumber.toQ_sub {a b : JsNumber} (ha : a.wf) (hb : b.wf) :
    (a.sub b).toQ = a.toQ - b.toQ := by
  have ha' : ((a.den : ℚ)) ≠ 0 := by exact_mod_cast Nat.pos_iff_ne_zero.mp ha
  have hb' : ((b.den : ℚ)) ≠ 0 := by exact_mod_cast Nat.pos_iff_ne_zero.mp hb
  field_simp [JsNumber.toQ, JsNumber.sub]
  ring

theorem JsNumber.toQ_mul (a b : JsNumber) :
    (a.mul b).toQ = a.toQ * b.toQ := by
  simp only [JsNumber.toQ, JsNumber.mul]
  push_cast
  rw [div_mul_div_comm]

theorem JsNumber.ble_iff {a b : JsNumber} (ha : a.wf) (hb : b.wf) :
    a.ble b = true ↔ a.toQ ≤ b.toQ := by
  have ha' : (0 : ℚ) < (a.den : ℚ) := by exact_mod_cast ha
  have hb' : (0 : ℚ) < (b.den : ℚ) := by exact_mod_cast hb
  rw [JsNumber.toQ, JsNumber.toQ, div_le_div_iff₀ ha' hb', JsNumber.ble]
  rw [decide_eq_true_eq]
  constructor
  · intro h
    exact_mod_cast h
  · intro h
    exact_mod_cast h

theorem JsNumber.blt_iff {a b : JsNumber} (ha : a.wf) (hb : b.wf) :
    a.blt b = true ↔ a.toQ < b.toQ := by
  have ha' : (0 : ℚ) < (a.den : ℚ) := by exact_mod_cast ha
  have hb' : (0 : ℚ) < (b.den : ℚ) := by exact_mod_cast hb
  rw [JsNumber.toQ, JsNumber.toQ, div_lt_div_iff₀ ha' hb', JsNumber.blt]
  rw [decide_eq_true_eq]
  constructor
  · intro h
    exact_mod_cast h
  · intro h
    exact_mod_cast h

/-- The autosave settings recognized by the compactor (autosave.ts reads
truncateafter, truncatenewtag, minstartingtokens, truncateby,
additionalcompressed and compressioncharlimit; compressafter and
compressnewtag exist in the settings shape but are not read by the
current truncation code). -/
structure AutosaveSettings where
  compressafter : JsNumber
  truncateafter : JsNumber
  truncatenewtag : Bool
  compressnewtag : Bool
  minstartingtokens : JsNumber
  truncateby : Option JsNumber
  additionalcompressed : Option JsNumber
  compressioncharlimit : Option Nat
deriving DecidableEq

/-- The truncation target: truncateby itself when set and greater
than 1, otherwise truncateafter times the fraction truncateby, which
defaults to 0.8 when unset or zero (JavaScript falsiness). -/
def targetTokensOf (s : AutosaveSettings) : JsNumber :=
  match s.truncateby with
  | some q => if q.truthy && (jsNat 1).blt q then q
              else s.truncateafter.mul (if q.truthy then q else ⟨4, 5⟩)
  | none => s.truncateafter.mul ⟨4, 5⟩

/-- The additionalcompressed setting with its JavaScript default
(falsy values give 20000). -/
def additionalCompressedOf (s : AutosaveSettings) : JsNumber :=
  match s.additionalcompressed with
  | some q => if q.truthy then q else jsNat 20000
  | none => jsNat 20000

/-- The compressioncharlimit setting with its JavaScript default
(falsy values give 560). -/
def compressionCharLimitOf (s : AutosaveSettings) : Nat :=
  match s.compressioncharlimit with
  | some n => if n ≠ 0 then n else 560
  | none => 560

/-- The marker string prepended to compressed fields. -/
def truncationMarkerOf (limit : Nat) : String :=
  "[truncated to " ++ toString limit ++ " chars. Run command again for full content]"

/-- In-place compression of one mapping value: a string longer than
the character limit plus the marker length is replaced by the marker
followed by its first limit characters. -/
def compressJVal (limit : Nat) (marker : String) : JValue → JValue
  | .str s => if limit + marker.length < s.length then .str (marker ++ s.take limit) else .str s
  | .num n => .num n

/-- In-place compression of one part, as the truncation pass mutates
parts: functionResponse response values and functionCall args values
are compressed per key; an overlong text part is replaced by the
marker followed by its first limit characters. -/
def compressPart (limit : Nat) : Part → Part
  | .functionResponse fr =>
      .functionResponse ⟨fr.id, fr.name,
        fr.response.map (fun kv => (kv.1, compressJVal limit (truncationMarkerOf limit) kv.2))⟩
  | .functionCall fc =>
      .functionCall ⟨fc.id, fc.name,
        fc.args.map (fun kv => (kv.1, compressJVal limit (truncationMarkerOf limit) kv.2))⟩
  | .text s =>
      .text (if limit + (truncationMarkerOf limit).length < s.length
             then truncationMarkerOf limit ++ s.take limit else s)
  | .inlineData => .inlineData

/-- The starting-window loop of the truncation pass: walk turns from
the start, admitting a turn unless doing so passes minstartingtokens
while at least two turns are already kept, and stopping as soon as the
minimum is met.  Returns the kept turns and their total token count. -/
def startLoop (minStart : JsNumber) : List (Content × Nat) → List Content → Nat → List Content × Nat
  | [], acc, kept => (acc.reverse, kept)
  | (c, tokens) :: rest, acc, kept =>
    if minStart.blt (jsNat (kept + tokens)) && decide (1 < acc.length) then (acc.reverse, kept)
    else if minStart.ble (jsNat (kept + tokens)) then ((c :: acc).reverse, kept + tokens)
    else startLoop minStart rest (c :: acc) (kept + tokens)

/-- The ending-window loop of the truncation pass, processed from the
newest turn backward (the input list is the middle-and-end segment
reversed, the output is the ending window newest-first): a turn that
fits the remaining verbatim budget endB is admitted as is; otherwise
its parts, when present, are compressed in place and it is admitted
against the enlarged budget endBPlus, or the scan stops; a turn
without a parts field that does not fit is skipped and the scan
continues. -/
def endLoopRev (tc : String → Nat) (limit : Nat) (endB endBPlus : JsNumber) :
    List (Content × Nat) → Nat → List Content
  | [], _ => []
  | (c, tokens) :: rest, counted =>
    if (jsNat (counted + tokens)).ble endB then
      c :: endLoopRev tc limit endB endBPlus rest (counted + tokens)
    else
      match c.parts with
      | none => endLoopRev tc limit endB endBPlus rest counted
      | some ps =>
        let c2 : Content := ⟨c.role, some (ps.map (compressPart limit))⟩
        let newTokens := countContentTokens tc c2
        if (jsNat (counted + newTokens)).ble endBPlus then
          c2 :: endLoopRev tc limit endB endBPlus rest (counted + newTokens)
        else []

/-- One truncation pass of autoSaveChatIfEnabled (autosave.ts lines
48 to 126): compute the target, keep a starting window of oldest
turns, then fill an ending window of newest turns within the
remaining budget, compressing in place where needed; the result is
the starting window followed by the ending window. -/
def truncatePass (tc : String → Nat) (s : AutosaveSettings) (history : List Content) : List Content :=
  let target := targetTokensOf s
  let tokenCounts := history.map (fun c => (c, countContentTokens tc c))
  let startKept := startLoop s.minstartingtokens tokenCounts [] 0
  let endB := target.sub (jsNat startKept.2)
  let endBPlus := (target.sub (jsNat startKept.2)).add (additionalCompressedOf s)
  let middleRev := (tokenCounts.drop startKept.1.length).reverse
  let endingRev := endLoopRev tc (compressionCharLimitOf s) endB endBPlus middleRev 0
  startKept.1 ++ endingRev.reverse

/-- The history-and-tag core of autoSaveChatIfEnabled: given the
current history, the resumed-chat tag and the value any randomUUID
call would produce, return the history handed to saveCheckpoint and
the final session tag.  The config plumbing, logger and on-disk
checkpoint write are outside the embedding; an empty history returns
early without touching the tag. -/
def autoSaveChatIfEnabled (tc : String → Nat) (settings : Option AutosaveSettings)
    (history : List Content) (tag : Option String) (fresh : String) :
    List Content × Option String :=
  if history.isEmpty then (history, tag)
  else
    match settings with
    | none => (history, some (tag.getD fresh))
    | some s =>
      let historyTokens := countHistoryTokens tc history
      if s.truncateafter.blt (jsNat historyTokens) then
        let tag1 : Option String := if s.truncatenewtag || tag.isNone then some fresh else tag
        (truncatePass tc s history, some (tag1.getD fresh))
      else
        (history, some (tag.getD fresh))

/-- Whether a part is a functionCall with the given id. -/
def partIsCallWithId (id : String) : Part → Bool
  | .functionCall fc => fc.id == id
  | _ => false

/-- Whether a part is a functionResponse with the given id. -/
def partIsResponseWithId (id : String) : Part → Bool
  | .functionResponse fr => fr.id == id
  | _ => false

/-- Whether some turn of the history carries a functionCall part with
the given id. -/
def historyHasCallId (id : String) (h : List Content) : Bool :=
  h.any (fun c => (c.parts.getD []).any (partIsCallWithId id))

/-- Whether some turn of the history carries a functionResponse part
with the given id. -/
def historyHasResponseId (id : String) (h : List Content) : Bool :=
  h.any (fun c => (c.parts.getD []).any (partIsResponseWithId id))


/-- A tool-call declaration carried by an assistant wire message. -/
structure WireToolCall where
  id : String
  name : String
  arguments : String
deriving DecidableEq

/-- One wire message of the outbound chat-completion request.  An
assistant message with an empty tool_calls list stands for a message
whose tool_calls field is absent (the source never materializes an
empty tool_calls array). -/
inductive Msg where
  | user (content : String)
  | assistant (content : Option String) (tool_calls : List WireToolCall)
  | tool (tool_call_id : String) (content : String)
deriving DecidableEq

/-- Whether a wire message is an assistant message. -/
def Msg.isAssistant : Msg → Bool
  | .assistant _ _ => true
  | _ => false

/-- JavaScript truthiness of the tool_calls field. -/
def Msg.hasToolCalls : Msg → Bool
  | .assistant _ tcs => !tcs.isEmpty
  | _ => false

/-- Whether the head of the remaining message list is a tool message. -/
def headIsTool : List Msg → Bool
  | .tool _ _ :: _ => true
  | _ => false

/-- Concatenation of the text parts of a turn (toOpenAiContent in the
source; a missing parts array gives the empty string). -/
def toOpenAiContent (parts : List Part) : String :=
  String.join (parts.map (fun p => match p with | .text s => s | _ => ""))

/-- The functionResponse parts of a turn. -/
def frsOf (c : Content) : List FunctionResponse :=
  (c.parts.getD []).filterMap (fun p => match p with
    | .functionResponse fr => some fr
    | _ => none)

/-- Whether a turn carries a functionCall part. -/
def hasCallPart (c : Content) : Bool :=
  (c.parts.getD []).any (fun p => match p with | .functionCall _ => true | _ => false)

/-- JavaScript string disjunction: the first operand unless it is
empty. -/
def jsOr (a b : String) : String := if a = "" then b else a

/-- The functionCall payload of a part when its id matches. -/
def callMatcher (id : String) : Part → Option FunctionCall
  | .functionCall fc => if fc.id == id then some fc else none
  | _ => none

/-- Backward search through the prior turns (newest first) for the
functionCall part whose id matches; within a turn the first matching
part wins, as Array.prototype.find does. -/
def findCall (prev : List Content) (id : String) : Option FunctionCall :=
  prev.findSome? (fun c => (c.parts.getD []).findSome? (callMatcher id))

/-- The name contributed by the backward-matched call, empty when the
search failed. -/
def matchedName : Option FunctionCall → String
  | some fc => fc.name
  | none => ""

/-- The serialized arguments contributed by the backward-matched call,
the empty JSON object when the search failed. -/
def matchedArgs : Option FunctionCall → String
  | some fc => stringifyPairs fc.args
  | none => "\x7b\x7d"

/-- The assistant-plus-tool message pair synthesized for one
functionResponse part: the assistant message carries null content and
one tool-call declaration whose name falls back from the matched call
to the response name and whose arguments serialize the matched call
args, defaulting to the empty object; the tool message carries the
serialized response. -/
def emitResponsePair (prev : List Content) (fr : FunctionResponse) : List Msg :=
  [ .assistant none
      [⟨fr.id, jsOr (matchedName (findCall prev fr.id)) fr.name,
        matchedArgs (findCall prev fr.id)⟩],
    .tool fr.id (stringifyPairs fr.response) ]

/-- The plain user-or-assistant message for a turn without tool parts. -/
def plainMsg (c : Content) : Msg :=
  if c.role == "model" then .assistant (some (toOpenAiContent (c.parts.getD []))) []
  else .user (toOpenAiContent (c.parts.getD []))

/-- First pass of toGeminiRequest: iterate turns keeping the already
processed turns newest-first in prev for the backward id search; a
turn with functionResponse parts is re-expressed as synthesized
assistant-plus-tool pairs, a turn with functionCall parts and no
response part emits nothing, and any other turn becomes a plain
message. -/
def pass1Aux (prev : List Content) : List Content → List Msg
  | [] => []
  | c :: rest =>
    if (frsOf c).isEmpty then
      if hasCallPart c then pass1Aux (c :: prev) rest
      else plainMsg c :: pass1Aux (c :: prev) rest
    else ((frsOf c).flatMap (emitResponsePair prev)) ++ pass1Aux (c :: prev) rest

/-- The merged assistant message closing a run: contents joined with
newlines (null when no nonempty content was collected) and the
concatenated tool-call lists. -/
def closeRun (cs : List String) (tcs : List WireToolCall) : Msg :=
  .assistant (if cs.isEmpty then none else some (String.intercalate "\n" cs)) tcs

/-- The nonempty string content an assistant message contributes to a
merge run. -/
def runContentsOf : Msg → List String
  | .assistant (some s) _ => if s == "" then [] else [s]
  | _ => []

/-- The tool-call list an assistant message contributes to a merge
run. -/
def runToolCallsOf : Msg → List WireToolCall
  | .assistant _ tcs => tcs
  | _ => []

/-- Second pass of toGeminiRequest: merge consecutive assistant
messages, but keep an assistant message bearing tool_calls that is
immediately followed by a tool message as is, and stop a run at such a
boundary.  The state carries the open run (collected contents,
collected tool calls, and the previously taken message, whose
tool_calls field the boundary test inspects). -/
def mergeLoop : Option (List String × List WireToolCall × Msg) → List Msg → List Msg
  | none, [] => []
  | some (cs, tcs, _), [] => [closeRun cs tcs]
  | none, curr :: rest =>
    if !curr.isAssistant then curr :: mergeLoop none rest
    else if curr.hasToolCalls && headIsTool rest then curr :: mergeLoop none rest
    else mergeLoop (some (runContentsOf curr, runToolCallsOf curr, curr)) rest
  | some (cs, tcs, prev), m :: rest =>
    if !m.isAssistant then closeRun cs tcs :: m :: mergeLoop none rest
    else if prev.hasToolCalls && headIsTool rest then
      if m.hasToolCalls && headIsTool rest then closeRun cs tcs :: m :: mergeLoop none rest
      else closeRun cs tcs :: mergeLoop (some (runContentsOf m, runToolCallsOf m, m)) rest
    else mergeLoop (some (cs ++ runContentsOf m, tcs ++ runToolCallsOf m, m)) rest

/-- The message list of the outbound request built by toGeminiRequest
(openai-converters.ts lines 237 to 365): the strict-pairing first pass
followed by the assistant-merging second pass.  The remaining request
fields (model, temperature, tools and so on) do not depend on the
history and are outside the embedding. -/
def toGeminiRequest (contents : List Content) : List Msg :=
  mergeLoop none (pass1Aux [] contents)


/-- A functionCall part reconstructed from a wire response; args is
the value JSON.parse returned for the arguments string. -/
structure GFunctionCall where
  name : String
  args : JValue
  id : String
deriving DecidableEq

/-- A part of the reconstructed model turn. -/
inductive RPart where
  | text (s : String)
  | functionCall (fc : GFunctionCall)
deriving DecidableEq

/-- The fields of the GenerateContentResponse built by
toGeminiResponse that depend on the wire response: the single
candidate content parts, its finish reason, the convenience text and
the functionCalls list. -/
structure GenResp where
  parts : List RPart
  finishReason : Option String
  text : String
  functionCalls : List GFunctionCall
deriving DecidableEq

/-- The function fragment of a streamed tool-call delta. -/
structure WireFn where
  name : Option String
  arguments : Option String
deriving DecidableEq

/-- One streamed tool-call delta, indexed by position. -/
structure DeltaToolCall where
  index : Nat
  id : Option String
  function : Option WireFn
deriving DecidableEq

/-- The delta of a streamed chunk choice. -/
structure WireDelta where
  content : Option String
  tool_calls : Option (List DeltaToolCall)
deriving DecidableEq

/-- The function of a complete (non-streamed) tool call. -/
structure WireMsgFn where
  name : String
  arguments : String
deriving DecidableEq

/-- A complete tool call of a non-streamed message. -/
structure WireMsgToolCall where
  id : String
  function : WireMsgFn
deriving DecidableEq

/-- The message of a complete choice. -/
structure WireMessage where
  content : Option String
  tool_calls : Option (List WireMsgToolCall)
deriving DecidableEq

/-- One choice of a wire response: a complete response carries
message, a streamed chunk carries delta. -/
structure WireChoice where
  message : Option WireMessage
  delta : Option WireDelta
  finish_reason : Option String
deriving DecidableEq

/-- A wire response; a malformed response may lack the choices array
altogether. -/
structure WireResponse where
  choices : Option (List WireChoice)
deriving DecidableEq

/-- One entry of the streaming tool-call accumulator. -/
structure PartialToolCall where
  id : String
  name : String
  arguments : String
deriving DecidableEq

/-- The streaming tool-call accumulator partialToolCalls: in the
source a single module-global object keyed by tool-call index; the
embedding threads it explicitly, keyed ascending as JavaScript
iterates integer-like object keys. -/
def PartialToolCalls : Type := List (Nat × PartialToolCall)

/-- Lookup of an accumulator entry by index. -/
def accGet : List (Nat × PartialToolCall) → Nat → Option PartialToolCall
  | [], _ => none
  | (j, e) :: rest, i => if j == i then some e else accGet rest i

/-- Insertion or replacement of an accumulator entry, keeping keys
ascending. -/
def accSet : List (Nat × PartialToolCall) → Nat → PartialToolCall → List (Nat × PartialToolCall)
  | [], i, v => [(i, v)]
  | (j, e) :: rest, i, v =>
    if i < j then (i, v) :: (j, e) :: rest
    else if i == j then (i, v) :: rest
    else (j, e) :: accSet rest i v

/-- Processing of one streamed tool-call delta against the
accumulator, as the delta branch of toGeminiResponse does: a truthy id
creates the entry when absent and stores the id; a truthy name or
arguments fragment is then written through the entry at that index,
which throws (embedded as Except.error) when no chunk has created the
entry yet; argument fragments are concatenated. -/
def applyDeltaTC (acc : List (Nat × PartialToolCall)) (t : DeltaToolCall) :
    Except String (List (Nat × PartialToolCall)) :=
  let idx := t.index
  let acc1 :=
    match t.id with
    | some i =>
      if i == "" then acc
      else
        let e := (accGet acc idx).getD ⟨"", "", ""⟩
        accSet acc idx ⟨i, e.name, e.arguments⟩
    | none => acc
  let step2 : Except String (List (Nat × PartialToolCall)) :=
    match t.function with
    | some f =>
      match f.name with
      | some n =>
        if n == "" then .ok acc1
        else
          match accGet acc1 idx with
          | none => .error "TypeError: cannot set name of undefined"
          | some e => .ok (accSet acc1 idx ⟨e.id, n, e.arguments⟩)
      | none => .ok acc1
    | none => .ok acc1
  match step2 with
  | .error msg => .error msg
  | .ok acc2 =>
    match t.function with
    | some f =>
      match f.arguments with
      | some a =>
        if a == "" then .ok acc2
        else
          match accGet acc2 idx with
          | none => .error "TypeError: cannot read arguments of undefined"
          | some e => .ok (accSet acc2 idx ⟨e.id, e.name, e.arguments ++ a⟩)
      | none => .ok acc2
    | none => .ok acc2

/-- Left-to-right processing of the tool-call deltas of one chunk. -/
def foldDeltaToolCalls : List DeltaToolCall → List (Nat × PartialToolCall) →
    Except String (List (Nat × PartialToolCall))
  | [], acc => .ok acc
  | t :: rest, acc =>
    match applyDeltaTC acc t with
    | .error msg => .error msg
    | .ok acc2 => foldDeltaToolCalls rest acc2

/-- Finalization of the accumulated partial calls on the tool_calls
finish marker: each arguments string is parsed (JSON.parse, embedded
as the parameter parse, throwing where it returns none). -/
def finalizePartialCalls (parse : String → Option JValue) :
    List (Nat × PartialToolCall) → Except String (List GFunctionCall)
  | [] => .ok []
  | (_, e) :: rest =>
    match parse e.arguments with
    | none => .error "SyntaxError: unexpected token in JSON"
    | some v =>
      match finalizePartialCalls parse rest with
      | .error msg => .error msg
      | .ok l => .ok (⟨e.name, v, e.id⟩ :: l)

/-- Conversion of the complete tool calls of a non-streamed message. -/
def msgToolCalls (parse : String → Option JValue) :
    List WireMsgToolCall → Except String (List GFunctionCall)
  | [] => .ok []
  | t :: rest =>
    match parse t.function.arguments with
    | none => .error "SyntaxError: unexpected token in JSON"
    | some v =>
      match msgToolCalls parse rest with
      | .error msg => .error msg
      | .ok l => .ok (⟨t.function.name, v, t.id⟩ :: l)

/-- JavaScript coalescing finish_reason || undefined. -/
def jsFinish : Option String → Option String
  | some s => if s == "" then none else some s
  | none => none

/-- The inbound conversion toGeminiResponse (openai-converters.ts
lines 381 to 467), with the module-global accumulator threaded
explicitly: reading choices[0] of a missing or empty choices array
throws; a complete message contributes its text and tool calls
directly; a streamed delta contributes its text and feeds its
tool-call deltas to the accumulator; on finish_reason tool_calls every
accumulated partial call is finalized and the accumulator cleared. -/
def toGeminiResponse (parse : String → Option JValue) (response : WireResponse)
    (acc : List (Nat × PartialToolCall)) :
    Except String (GenResp × List (Nat × PartialToolCall)) :=
  match response.choices with
  | none => .error "TypeError: cannot read choices 0 of undefined"
  | some choices =>
    match choices.head? with
    | none => .error "TypeError: cannot use in operator on undefined"
    | some choice =>
      let stage1 : Except String (String × List GFunctionCall × List (Nat × PartialToolCall)) :=
        match choice.message with
        | some message =>
          match msgToolCalls parse (message.tool_calls.getD []) with
          | .error msg => .error msg
          | .ok calls => .ok (message.content.getD "", calls, acc)
        | none =>
          match choice.delta with
          | some delta =>
            match foldDeltaToolCalls (delta.tool_calls.getD []) acc with
            | .error msg => .error msg
            | .ok acc2 => .ok (delta.content.getD "", [], acc2)
          | none => .ok ("", [], acc)
      match stage1 with
      | .error msg => .error msg
      | .ok (text, calls0, acc2) =>
        let stage2 : Except String (List GFunctionCall × List (Nat × PartialToolCall)) :=
          if choice.finish_reason == some "tool_calls" then
            match finalizePartialCalls parse acc2 with
            | .error msg => .error msg
            | .ok flushed => .ok (calls0 ++ flushed, [])
          else .ok (calls0, acc2)
        match stage2 with
        | .error msg => .error msg
        | .ok (calls, acc3) =>
          .ok ({ parts := (if text == "" then [] else [RPart.text text])
                   ++ calls.map RPart.functionCall,
                 finishReason := jsFinish choice.finish_reason,
                 text := text,
                 functionCalls := calls }, acc3)

/-- Sequential application of toGeminiResponse to a stream of chunks,
threading the accumulator exactly as the module-global state of the
source is threaded through consecutive calls. -/
def runStream (parse : String → Option JValue) :
    List WireResponse → List (Nat × PartialToolCall) →
    Except String (List GenResp × List (Nat × PartialToolCall))
  | [], acc => .ok ([], acc)
  | r :: rest, acc =>
    match toGeminiResponse parse r acc with
    | .error msg => .error msg
    | .ok (g, acc2) =>
      match runStream parse rest acc2 with
      | .error msg => .error msg
      | .ok (gs, accF) => .ok (g :: gs, accF)


theorem string_empty_append (s : String) : "" ++ s = s := rfl

theorem countHistoryTokens_cons (tc : String → Nat) (c : Content) (l : List Content) :
    countHistoryTokens tc (c :: l) = countContentTokens tc c + countHistoryTokens tc l := by
  simp [countHistoryTokens]

theorem countHistoryTokens_append (tc : String → Nat) (l1 l2 : List Content) :
    countHistoryTokens tc (l1 ++ l2) = countHistoryTokens tc l1 + countHistoryTokens tc l2 := by
  simp [countHistoryTokens]

theorem countHistoryTokens_reverse (tc : String → Nat) (l : List Content) :
    countHistoryTokens tc l.reverse = countHistoryTokens tc l := by
  simp [countHistoryTokens, List.map_reverse, List.sum_reverse]

theorem callMatcher_eq_none {id : String} {p : Part} (h : partIsCallWithId id p = false) :
    callMatcher id p = none := by
  cases p <;> simp_all [partIsCallWithId, callMatcher]

theorem findCall_eq_none {prev : List Content} {id : String}
    (h : ∀ c ∈ prev, ∀ p ∈ c.parts.getD [], partIsCallWithId id p = false) :
    findCall prev id = none := by
  unfold findCall
  rw [List.findSome?_eq_none_iff]
  intro c hc
  rw [List.findSome?_eq_none_iff]
  intro p hp
  exact callMatcher_eq_none (h c hc p hp)

theorem findCall_middle {p q : List Content} {t : Content} {id : String}
    (h : ∀ pp ∈ t.parts.getD [], partIsCallWithId id pp = false) :
    findCall (p ++ t :: q) id = findCall (p ++ q) id := by
  have hnone : (t.parts.getD []).findSome? (callMatcher id) = none := by
    rw [List.findSome?_eq_none_iff]
    intro pp hpp
    exact callMatcher_eq_none (h pp hpp)
  unfold findCall
  simp [List.findSome?_append, List.findSome?_cons, hnone]

theorem flatMap_congr_mem {α β : Type} {l : List α} {f g : α → List β}
    (h : ∀ a ∈ l, f a = g a) : l.flatMap f = l.flatMap g := by
  induction l with
  | nil => rfl
  | cons x xs ih =>
    rw [List.flatMap_cons, List.flatMap_cons, h x (List.mem_cons_self x xs),
      ih (fun a ha => h a (List.mem_cons_of_mem _ ha))]

theorem pass1Aux_skip {c : Content} (prev rest : List Content) (hfr : frsOf c = [])
    (hfc : hasCallPart c = true) :
    pass1Aux prev (c :: rest) = pass1Aux (c :: prev) rest := by
  simp [pass1Aux, hfr, hfc]

theorem pass1Aux_append (prev l1 l2 : List Content) :
    pass1Aux prev (l1 ++ l2) = pass1Aux prev l1 ++ pass1Aux (l1.reverse ++ prev) l2 := by
  induction l1 generalizing prev with
  | nil => simp [pass1Aux]
  | cons c rest ih =>
    simp only [List.cons_append, pass1Aux]
    by_cases h1 : (frsOf c).isEmpty
    · by_cases h2 : hasCallPart c
      · simp [h1, h2, ih (c :: prev), List.reverse_cons, List.append_assoc]
      · simp [h1, h2, ih (c :: prev), List.reverse_cons, List.append_assoc]
    · simp [h1, ih (c :: prev), List.reverse_cons, List.append_assoc]

theorem pass1Aux_transparent (t : Content) :
    ∀ (H p q : List Content),
      (∀ c ∈ H, ∀ fr ∈ frsOf c, ∀ pp ∈ t.parts.getD [], partIsCallWithId fr.id pp = false) →
      pass1Aux (p ++ t :: q) H = pass1Aux (p ++ q) H := by
  intro H
  induction H with
  | nil => intro p q _; rfl
  | cons c rest ih =>
    intro p q hmiss
    have hrec : pass1Aux (c :: (p ++ t :: q)) rest = pass1Aux (c :: (p ++ q)) rest := by
      have := ih (c :: p) q (fun c2 h2 => hmiss c2 (List.mem_cons_of_mem _ h2))
      simpa using this
    simp only [pass1Aux]
    by_cases h1 : (frsOf c).isEmpty
    · by_cases h2 : hasCallPart c <;> simp [h1, h2, hrec]
    · have hemit : (frsOf c).flatMap (emitResponsePair (p ++ t :: q))
          = (frsOf c).flatMap (emitResponsePair (p ++ q)) := by
        apply flatMap_congr_mem
        intro fr hfr
        have hfind := @findCall_middle p q t fr.id
          (hmiss c (List.mem_cons_self c rest) fr hfr)
        simp [emitResponsePair, hfind]
      simp [h1, hrec, hemit]

theorem Msg.isAssistant_assistant (c : Option String) (tcs : List WireToolCall) :
    (Msg.assistant c tcs).isAssistant = true := rfl

theorem Msg.isAssistant_tool (i s : String) : (Msg.tool i s).isAssistant = false := rfl

theorem Msg.hasToolCalls_assistant (c : Option String) (tcs : List WireToolCall) :
    (Msg.assistant c tcs).hasToolCalls = !tcs.isEmpty := rfl

theorem headIsTool_cons_tool (i s : String) (r : List Msg) :
    headIsTool (Msg.tool i s :: r) = true := rfl

theorem mergeLoop_cons_tool (tid ts : String) (rest : List Msg) :
    mergeLoop none (Msg.tool tid ts :: rest) = Msg.tool tid ts :: mergeLoop none rest := by
  simp [mergeLoop, Msg.isAssistant_tool]

theorem mergeLoop_pair_preserved (i s : String) (tcx : WireToolCall) :
    ∀ (X : List Msg) (st : Option (List String × List WireToolCall × Msg))
      (c : Option String) (tcs : List WireToolCall) (Y : List Msg),
      tcx ∈ tcs →
      ∃ pre c2 tcs2,
        mergeLoop st (X ++ Msg.assistant c tcs :: Msg.tool i s :: Y)
          = pre ++ Msg.assistant c2 tcs2 :: Msg.tool i s :: mergeLoop none Y
        ∧ tcx ∈ tcs2 := by
  intro X
  induction X with
  | nil =>
    intro st c tcs Y htcx
    have htcs : tcs.isEmpty = false := by
      cases tcs
      · simp at htcx
      · rfl
    match st with
    | none =>
      refine ⟨[], c, tcs, ?_, htcx⟩
      simp [mergeLoop, Msg.isAssistant_assistant, Msg.isAssistant_tool,
        Msg.hasToolCalls_assistant, headIsTool_cons_tool, htcs]
    | some (cs, tcs0, prev) =>
      by_cases hp : prev.hasToolCalls = true
      · refine ⟨[closeRun cs tcs0], c, tcs, ?_, htcx⟩
        simp [mergeLoop, Msg.isAssistant_assistant, Msg.isAssistant_tool,
          Msg.hasToolCalls_assistant, headIsTool_cons_tool, htcs, hp]
      · rw [Bool.not_eq_true] at hp
        refine ⟨[],
          if (cs ++ runContentsOf (Msg.assistant c tcs)).isEmpty then none
            else some (String.intercalate "\n" (cs ++ runContentsOf (Msg.assistant c tcs))),
          tcs0 ++ runToolCallsOf (Msg.assistant c tcs), ?_, ?_⟩
        · simp [mergeLoop, Msg.isAssistant_assistant, Msg.isAssistant_tool,
            Msg.hasToolCalls_assistant, headIsTool_cons_tool, htcs, hp, closeRun]
        · simp [runToolCallsOf, htcx]
  | cons m X' ih =>
    intro st c tcs Y htcx
    match st with
    | none =>
      by_cases h1 : m.isAssistant = true
      · by_cases h2 : (m.hasToolCalls && headIsTool (X' ++ Msg.assistant c tcs :: Msg.tool i s :: Y)) = true
        · obtain ⟨pre, c2, tcs2, heq, hm⟩ := ih none c tcs Y htcx
          exact ⟨m :: pre, c2, tcs2, by simp [mergeLoop, h1, h2, heq], hm⟩
        · rw [Bool.not_eq_true] at h2
          obtain ⟨pre, c2, tcs2, heq, hm⟩ := ih (some (runContentsOf m, runToolCallsOf m, m)) c tcs Y htcx
          exact ⟨pre, c2, tcs2, by simp [mergeLoop, h1, h2, heq], hm⟩
      · rw [Bool.not_eq_true] at h1
        obtain ⟨pre, c2, tcs2, heq, hm⟩ := ih none c tcs Y htcx
        exact ⟨m :: pre, c2, tcs2, by simp [mergeLoop, h1, heq], hm⟩
    | some (cs, tcs0, prev) =>
      by_cases h1 : m.isAssistant = true
      · by_cases h2 : (prev.hasToolCalls && headIsTool (X' ++ Msg.assistant c tcs :: Msg.tool i s :: Y)) = true
        · by_cases h3 : (m.hasToolCalls && headIsTool (X' ++ Msg.assistant c tcs :: Msg.tool i s :: Y)) = true
          · obtain ⟨pre, c2, tcs2, heq, hm⟩ := ih none c tcs Y htcx
            exact ⟨closeRun cs tcs0 :: m :: pre, c2, tcs2, by simp [mergeLoop, h1, h2, h3, heq], hm⟩
          · rw [Bool.not_eq_true] at h3
            obtain ⟨pre, c2, tcs2, heq, hm⟩ := ih (some (runContentsOf m, runToolCallsOf m, m)) c tcs Y htcx
            exact ⟨closeRun cs tcs0 :: pre, c2, tcs2, by simp [mergeLoop, h1, h2, h3, heq], hm⟩
        · rw [Bool.not_eq_true] at h2
          obtain ⟨pre, c2, tcs2, heq, hm⟩ :=
            ih (some (cs ++ runContentsOf m, tcs0 ++ runToolCallsOf m, m)) c tcs Y htcx
          exact ⟨pre, c2, tcs2, by simp [mergeLoop, h1, h2, heq], hm⟩
      · rw [Bool.not_eq_true] at h1
        obtain ⟨pre, c2, tcs2, heq, hm⟩ := ih none c tcs Y htcx
        exact ⟨closeRun cs tcs0 :: m :: pre, c2, tcs2, by simp [mergeLoop, h1, heq], hm⟩

/-- The string-length tokenizer used to evaluate the compactor at
concrete inputs. -/
def strLen : String → Nat := String.length

/-- C7. For every history containing a functionResponse part whose id
matches no functionCall part in any earlier turn, the outbound render
still emits an assistant message whose tool_calls carry that id, with
the name defaulted to the response name and the arguments defaulted to
the empty object, immediately followed by the tool message for that
response; the embedded render is a total function, so no input raises.
Amended from the claim: the source defaults the synthesized name to
functionResponse.name before the empty string, so a named response
yields its own name, not the empty name. -/
theorem toGeminiRequest_unmatched_response_emitted
    (H1 H2 : List Content) (role : String) (ps1 ps2 : List Part) (fr : FunctionResponse)
    (hnone : ∀ c ∈ H1, ∀ p ∈ c.parts.getD [], partIsCallWithId fr.id p = false) :
    ∃ pre c2 tcs2 post,
      toGeminiRequest (H1 ++ ⟨role, some (ps1 ++ Part.functionResponse fr :: ps2)⟩ :: H2)
        = pre ++ Msg.assistant c2 tcs2 :: Msg.tool fr.id (stringifyPairs fr.response) :: post
      ∧ (⟨fr.id, fr.name, "\x7b\x7d"⟩ : WireToolCall) ∈ tcs2 := by
  have hfrmem : fr ∈ frsOf ⟨role, some (ps1 ++ Part.functionResponse fr :: ps2)⟩ := by
    refine List.mem_filterMap.mpr ⟨Part.functionResponse fr, ?_, rfl⟩
    simp
  have hprev : findCall H1.reverse fr.id = none := by
    apply findCall_eq_none
    intro c hc p hp
    exact hnone c (List.mem_reverse.mp hc) p hp
  have hemit : emitResponsePair H1.reverse fr
      = [Msg.assistant none [⟨fr.id, fr.name, "\x7b\x7d"⟩],
         Msg.tool fr.id (stringifyPairs fr.response)] := by
    rw [emitResponsePair, hprev]
    simp [matchedName, matchedArgs, jsOr]
  have hne : (frsOf ⟨role, some (ps1 ++ Part.functionResponse fr :: ps2)⟩).isEmpty = false := by
    cases h : frsOf ⟨role, some (ps1 ++ Part.functionResponse fr :: ps2)⟩ with
    | nil => rw [h] at hfrmem; cases hfrmem
    | cons a l => rfl
  obtain ⟨F1, F2, hsplit⟩ := List.append_of_mem hfrmem
  have hmsgs : pass1Aux [] (H1 ++ ⟨role, some (ps1 ++ Part.functionResponse fr :: ps2)⟩ :: H2)
      = (pass1Aux [] H1 ++ F1.flatMap (emitResponsePair H1.reverse))
        ++ Msg.assistant none [⟨fr.id, fr.name, "\x7b\x7d"⟩]
          :: Msg.tool fr.id (stringifyPairs fr.response)
          :: (F2.flatMap (emitResponsePair H1.reverse)
              ++ pass1Aux (⟨role, some (ps1 ++ Part.functionResponse fr :: ps2)⟩
                    :: H1.reverse) H2) := by
    rw [pass1Aux_append, List.append_nil]
    conv_lhs => rw [pass1Aux]
    rw [if_neg (by simp [hne])]
    rw [hsplit, List.flatMap_append, List.flatMap_cons, hemit]
    simp [List.append_assoc]
  unfold toGeminiRequest
  rw [hmsgs]
  obtain ⟨pre, c2, tcs2, heq, hm⟩ :=
    mergeLoop_pair_preserved fr.id (stringifyPairs fr.response)
      ⟨fr.id, fr.name, "\x7b\x7d"⟩
      (pass1Aux [] H1 ++ F1.flatMap (emitResponsePair H1.reverse)) none none
      [⟨fr.id, fr.name, "\x7b\x7d"⟩]
      (F2.flatMap (emitResponsePair H1.reverse)
        ++ pass1Aux (⟨role, some (ps1 ++ Part.functionResponse fr :: ps2)⟩
              :: H1.reverse) H2)
      (List.mem_singleton.mpr rfl)
  exact ⟨pre, c2, tcs2, _, heq, hm⟩

/-- Witness for C7 at a concrete one-turn history whose response is
unmatched. -/
theorem toGeminiRequest_unmatched_response_emitted_witness :
    ∃ pre c2 tcs2 post,
      toGeminiRequest ([] ++ (⟨"tool", some ([] ++ Part.functionResponse ⟨"Z", "myTool", []⟩ :: [])⟩ : Content) :: [])
        = pre ++ Msg.assistant c2 tcs2
            :: Msg.tool "Z" (stringifyPairs ([] : List (String × JValue))) :: post
      ∧ (⟨"Z", "myTool", "\x7b\x7d"⟩ : WireToolCall) ∈ tcs2 :=
  toGeminiRequest_unmatched_response_emitted [] [] "tool" [] [] ⟨"Z", "myTool", []⟩
    (by intro c hc; cases hc)

/-- C2. Tool-call pairing of the outbound render: a two-turn history
of one model functionCall and its tool functionResponse renders to
exactly one assistant tool_calls message immediately followed by one
tool message with the same id; and a turn carrying only functionCall
parts with no later matching functionResponse anywhere contributes no
message to the rendered request (the request equals the render of the
history without that turn). -/
theorem toGeminiRequest_tool_pairing :
    (∀ (X n rn : String) (args resp : List (String × JValue)),
      toGeminiRequest
          [⟨"model", some [Part.functionCall ⟨X, n, args⟩]⟩,
           ⟨"tool", some [Part.functionResponse ⟨X, rn, resp⟩]⟩]
        = [Msg.assistant none [⟨X, jsOr n rn, stringifyPairs args⟩],
           Msg.tool X (stringifyPairs resp)])
    ∧ (∀ (H1 H2 : List Content) (role : String) (ps : List Part),
        ps ≠ [] →
        (∀ p ∈ ps, ∃ fc, p = Part.functionCall fc) →
        (∀ c ∈ H2, ∀ fr ∈ frsOf c, ∀ p ∈ ps, partIsCallWithId fr.id p = false) →
        toGeminiRequest (H1 ++ (⟨role, some ps⟩ : Content) :: H2) = toGeminiRequest (H1 ++ H2)) := by
  constructor
  · intro X n rn args resp
    simp [toGeminiRequest, pass1Aux, frsOf, hasCallPart, emitResponsePair, findCall,
      callMatcher, matchedName, matchedArgs, mergeLoop, Msg.isAssistant, Msg.hasToolCalls,
      headIsTool, jsOr]
  · intro H1 H2 role ps hne hall hmiss
    have hfr : frsOf ⟨role, some ps⟩ = [] := by
      rw [frsOf, List.filterMap_eq_nil_iff]
      intro p hp
      obtain ⟨fc, rfl⟩ := hall p (by simpa using hp)
      rfl
    have hfc : hasCallPart ⟨role, some ps⟩ = true := by
      rw [hasCallPart, List.any_eq_true]
      obtain ⟨p, hp⟩ := List.exists_mem_of_ne_nil ps hne
      obtain ⟨fc, rfl⟩ := hall p hp
      exact ⟨Part.functionCall fc, by simpa using hp, rfl⟩
    unfold toGeminiRequest
    congr 1
    rw [pass1Aux_append, pass1Aux_append]
    congr 1
    rw [pass1Aux_skip _ _ hfr hfc]
    have := pass1Aux_transparent ⟨role, some ps⟩ H2 [] (H1.reverse ++ [])
      (by intro c hc fr hfr2 pp hpp; exact hmiss c hc fr hfr2 pp (by simpa using hpp))
    simpa using this

/-- Witness for C2 at concrete inputs: the pairing equation at a
concrete id, and the dropping equation for a dangling call turn. -/
theorem toGeminiRequest_tool_pairing_witness :
    (toGeminiRequest
        [⟨"model", some [Part.functionCall ⟨"X", "fn", []⟩]⟩,
         ⟨"tool", some [Part.functionResponse ⟨"X", "rn", []⟩]⟩]
      = [Msg.assistant none [⟨"X", jsOr "fn" "rn", stringifyPairs []⟩],
         Msg.tool "X" (stringifyPairs [])])
    ∧ (toGeminiRequest ([⟨"user", some [Part.text "hi"]⟩]
          ++ (⟨"model", some [Part.functionCall ⟨"Y", "g", []⟩]⟩ : Content)
          :: [⟨"user", some [Part.text "bye"]⟩])
        = toGeminiRequest ([⟨"user", some [Part.text "hi"]⟩] ++ [⟨"user", some [Part.text "bye"]⟩])) :=
  ⟨toGeminiRequest_tool_pairing.1 "X" "fn" "rn" [] [],
   toGeminiRequest_tool_pairing.2 [⟨"user", some [Part.text "hi"]⟩]
     [⟨"user", some [Part.text "bye"]⟩] "model" [Part.functionCall ⟨"Y", "g", []⟩]
     (by decide)
     (by intro p hp; rw [List.mem_singleton] at hp; exact ⟨⟨"Y", "g", []⟩, hp⟩)
     (by intro c hc fr hfr p hp
         rw [List.mem_singleton] at hc
         subst hc
         simp [frsOf] at hfr)⟩

/-- C9. A turn with at least one functionCall part and no
functionResponse part contributes nothing at its position in the first
rendering pass, so its text parts are dropped from the request; and
every synthesized assistant tool-call message carries null content. -/
theorem toGeminiRequest_call_turn_contributes_nothing :
    (∀ (prev rest : List Content) (c : Content),
      hasCallPart c = true → frsOf c = [] →
      pass1Aux prev (c :: rest) = pass1Aux (c :: prev) rest)
    ∧ (∀ (prev : List Content) (fr : FunctionResponse),
        ∃ tcall, emitResponsePair prev fr
          = [Msg.assistant none [tcall], Msg.tool fr.id (stringifyPairs fr.response)]) := by
  constructor
  · intro prev rest c h1 h2
    exact pass1Aux_skip prev rest h2 h1
  · intro prev fr
    exact ⟨_, rfl⟩

/-- Witness for C9 at a concrete call-and-text turn. -/
theorem toGeminiRequest_call_turn_contributes_nothing_witness :
    (pass1Aux [] ((⟨"model", some [Part.text "thinking", Part.functionCall ⟨"X", "fn", []⟩]⟩ : Content) :: [])
      = pass1Aux [⟨"model", some [Part.text "thinking", Part.functionCall ⟨"X", "fn", []⟩]⟩] [])
    ∧ (∃ tcall, emitResponsePair [] ⟨"X", "rn", []⟩
        = [Msg.assistant none [tcall], Msg.tool "X" (stringifyPairs [])]) :=
  ⟨toGeminiRequest_call_turn_contributes_nothing.1 [] []
      ⟨"model", some [Part.text "thinking", Part.functionCall ⟨"X", "fn", []⟩]⟩
      (by decide) (by decide),
   toGeminiRequest_call_turn_contributes_nothing.2 [] ⟨"X", "rn", []⟩⟩

theorem targetTokensOf_wf {s : AutosaveSettings} (hta : s.truncateafter.wf)
    (htb : ∀ q ∈ s.truncateby, q.wf) : (targetTokensOf s).wf := by
  cases h : s.truncateby with
  | none =>
    simp only [targetTokensOf, h]
    exact JsNumber.wf_mul hta (by norm_num [JsNumber.wf])
  | some q =>
    have hq : q.wf := htb q (by simp [h])
    simp only [targetTokensOf, h]
    by_cases h1 : (q.truthy && (jsNat 1).blt q) = true
    · rw [if_pos h1]; exact hq
    · rw [if_neg h1]
      by_cases h2 : q.truthy = true
      · rw [if_pos h2]; exact JsNumber.wf_mul hta hq
      · rw [if_neg h2]; exact JsNumber.wf_mul hta (by norm_num [JsNumber.wf])

theorem additionalCompressedOf_wf {s : AutosaveSettings}
    (hac : ∀ q ∈ s.additionalcompressed, q.wf) : (additionalCompressedOf s).wf := by
  cases h : s.additionalcompressed with
  | none =>
    simp only [additionalCompressedOf, h]
    exact JsNumber.wf_jsNat _
  | some q =>
    simp only [additionalCompressedOf, h]
    by_cases h1 : q.truthy = true
    · rw [if_pos h1]; exact hac q (by simp [h])
    · rw [if_neg h1]; exact JsNumber.wf_jsNat _

theorem startLoop_cost (tc : String → Nat) (minStart : JsNumber) :
    ∀ (l : List (Content × Nat)) (acc : List Content) (kept : Nat),
      (∀ p ∈ l, p.2 = countContentTokens tc p.1) →
      countHistoryTokens tc acc.reverse = kept →
      countHistoryTokens tc (startLoop minStart l acc kept).1 = (startLoop minStart l acc kept).2 := by
  intro l
  induction l with
  | nil =>
    intro acc kept _ hacc
    simpa [startLoop] using hacc
  | cons p rest ih =>
    intro acc kept hcons hacc
    obtain ⟨c, tokens⟩ := p
    have htok : tokens = countContentTokens tc c := hcons (c, tokens) (List.mem_cons_self _ _)
    have hrest : ∀ q ∈ rest, q.2 = countContentTokens tc q.1 :=
      fun q hq => hcons q (List.mem_cons_of_mem _ hq)
    have hsnoc : countHistoryTokens tc (c :: acc).reverse = kept + tokens := by
      rw [List.reverse_cons, countHistoryTokens_append, hacc]
      simp [countHistoryTokens, ← htok]
    simp only [startLoop]
    by_cases h1 : (minStart.blt (jsNat (kept + tokens)) && decide (1 < acc.length)) = true
    · rw [if_pos h1]
      exact hacc
    · rw [if_neg h1]
      by_cases h2 : minStart.ble (jsNat (kept + tokens)) = true
      · rw [if_pos h2]
        exact hsnoc
      · rw [if_neg h2]
        exact ih (c :: acc) (kept + tokens) hrest hsnoc

theorem endLoopRev_cost_le (tc : String → Nat) (limit : Nat) (endB endBPlus : JsNumber)
    (hB : endB.wf) (hBP : endBPlus.wf) :
    ∀ (l : List (Content × Nat)) (counted : Nat),
      (∀ p ∈ l, p.2 = countContentTokens tc p.1) →
      ((counted : ℚ) + (countHistoryTokens tc (endLoopRev tc limit endB endBPlus l counted) : ℚ)
        ≤ max (counted : ℚ) (max endB.toQ endBPlus.toQ)) := by
  intro l
  induction l with
  | nil =>
    intro counted _
    simp only [endLoopRev, countHistoryTokens, List.map_nil, List.sum_nil, Nat.cast_zero,
      add_zero]
    exact le_max_left _ _
  | cons p rest ih =>
    intro counted hcons
    obtain ⟨c, tokens⟩ := p
    have htok : tokens = countContentTokens tc c := hcons (c, tokens) (List.mem_cons_self _ _)
    have hrest : ∀ q ∈ rest, q.2 = countContentTokens tc q.1 :=
      fun q hq => hcons q (List.mem_cons_of_mem _ hq)
    simp only [endLoopRev]
    by_cases h1 : (jsNat (counted + tokens)).ble endB = true
    · rw [if_pos h1]
      have hle : ((counted : ℚ) + (tokens : ℚ)) ≤ endB.toQ := by
        have := (JsNumber.ble_iff (JsNumber.wf_jsNat _) hB).mp h1
        rw [JsNumber.toQ_jsNat] at this
        push_cast at this
        exact this
      have hIH := ih (counted + tokens) hrest
      rw [countHistoryTokens_cons, ← htok]
      have hmax : max ((counted + tokens : Nat) : ℚ) (max endB.toQ endBPlus.toQ)
          = max endB.toQ endBPlus.toQ := by
        apply max_eq_right
        push_cast
        exact le_trans hle (le_max_left _ _)
      rw [hmax] at hIH
      push_cast at hIH ⊢
      have : (counted : ℚ) + ((tokens : ℚ)
          + (countHistoryTokens tc (endLoopRev tc limit endB endBPlus rest (counted + tokens)) : ℚ))
          ≤ max endB.toQ endBPlus.toQ := by linarith
      exact le_trans this (le_max_right _ _)
    · rw [if_neg h1]
      cases hcp : c.parts with
      | none =>
        simp only []
        exact ih counted hrest
      | some ps =>
        simp only []
        by_cases h2 : (jsNat (counted + countContentTokens tc ⟨c.role, some (ps.map (compressPart limit))⟩)).ble endBPlus = true
        · rw [if_pos h2]
          have hle : ((counted : ℚ)
              + (countContentTokens tc ⟨c.role, some (ps.map (compressPart limit))⟩ : ℚ))
              ≤ endBPlus.toQ := by
            have := (JsNumber.ble_iff (JsNumber.wf_jsNat _) hBP).mp h2
            rw [JsNumber.toQ_jsNat] at this
            push_cast at this
            exact this
          have hIH := ih (counted + countContentTokens tc ⟨c.role, some (ps.map (compressPart limit))⟩) hrest
          rw [countHistoryTokens_cons]
          have hmax : max ((counted + countContentTokens tc ⟨c.role, some (ps.map (compressPart limit))⟩ : Nat) : ℚ)
              (max endB.toQ endBPlus.toQ) = max endB.toQ endBPlus.toQ := by
            apply max_eq_right
            push_cast
            exact le_trans hle (le_max_right _ _)
          rw [hmax] at hIH
          push_cast at hIH ⊢
          have : (counted : ℚ) + ((countContentTokens tc ⟨c.role, some (ps.map (compressPart limit))⟩ : ℚ)
              + (countHistoryTokens tc (endLoopRev tc limit endB endBPlus rest
                  (counted + countContentTokens tc ⟨c.role, some (ps.map (compressPart limit))⟩)) : ℚ))
              ≤ max endB.toQ endBPlus.toQ := by linarith
          exact le_trans this (le_max_right _ _)
        · rw [if_neg h2]
          simp only [countHistoryTokens, List.map_nil, List.sum_nil, Nat.cast_zero, add_zero]
          exact le_max_left _ _

/-- Concrete settings under which a truncation pass cuts between a
functionCall turn and its functionResponse turn. -/
def orphanSettings : AutosaveSettings :=
  { compressafter := jsNat 30, truncateafter := jsNat 60, truncatenewtag := false,
    compressnewtag := false, minstartingtokens := jsNat 2, truncateby := none,
    additionalcompressed := some (jsNat 1), compressioncharlimit := some 100 }

/-- Concrete history holding a paired functionCall and functionResponse
in its middle. -/
def orphanHistory : List Content :=
  [⟨"u", some [Part.text "ab"]⟩,
   ⟨"m", some [Part.functionCall ⟨"1", "f", []⟩]⟩,
   ⟨"t", some [Part.functionResponse ⟨"1", "f", []⟩]⟩,
   ⟨"u", some [Part.text "hello"]⟩]

/-- C1 (code bug evidence).  The truncation pass has no tool-pairing
logic: at this input the pass triggers, the input pairs functionCall
id 1 with functionResponse id 1, and the produced history retains the
functionResponse while dropping its functionCall. -/
theorem autosave_truncation_orphans_response :
    (orphanSettings.truncateafter.blt (jsNat (countHistoryTokens strLen orphanHistory)) = true)
    ∧ historyHasCallId "1" orphanHistory = true
    ∧ (autoSaveChatIfEnabled strLen (some orphanSettings) orphanHistory none "t").1
        = [⟨"u", some [Part.text "ab"]⟩, ⟨"t", some [Part.functionResponse ⟨"1", "f", []⟩]⟩,
           ⟨"u", some [Part.text "hello"]⟩]
    ∧ historyHasResponseId "1"
        (autoSaveChatIfEnabled strLen (some orphanSettings) orphanHistory none "t").1 = true
    ∧ historyHasCallId "1"
        (autoSaveChatIfEnabled strLen (some orphanSettings) orphanHistory none "t").1 = false := by
  exact ⟨by decide, by decide, by decide, by decide, by decide⟩

/-- Tokenizer weighting one marker string heavily, to build a first
turn that alone exceeds the truncation target. -/
def tcBig : String → Nat := fun s => if s = "BIG" then 100 else s.length

/-- Settings for the budget-overshoot counterexample. -/
def bigSettings : AutosaveSettings :=
  { compressafter := jsNat 5, truncateafter := jsNat 10, truncatenewtag := false,
    compressnewtag := false, minstartingtokens := jsNat 1, truncateby := none,
    additionalcompressed := some (jsNat 1), compressioncharlimit := none }

/-- History whose first turn alone costs far more than the target. -/
def bigHistory : List Content :=
  [⟨"u", some [Part.text "BIG"]⟩, ⟨"u", some [Part.text "hi"]⟩]

/-- C4 counterexample.  A truncation pass is triggered, yet the
recomputed cost of the produced history exceeds
targetTokens + additionalCompressed, because the always-kept starting
window (the first turn) alone exceeds the target. -/
theorem autosave_budget_overshoot :
    (bigSettings.truncateafter.blt (jsNat (countHistoryTokens tcBig bigHistory)) = true)
    ∧ ¬ ((countHistoryTokens tcBig
          (autoSaveChatIfEnabled tcBig (some bigSettings) bigHistory none "t").1 : ℚ)
        ≤ (targetTokensOf bigSettings).toQ + (additionalCompressedOf bigSettings).toQ) := by
  constructor
  · decide
  · have hres : (autoSaveChatIfEnabled tcBig (some bigSettings) bigHistory none "t").1
        = [⟨"u", some [Part.text "BIG"]⟩] := by decide
    have hcost : countHistoryTokens tcBig [(⟨"u", some [Part.text "BIG"]⟩ : Content)] = 101 := by
      decide
    have ht : targetTokensOf bigSettings = ⟨40, 5⟩ := by decide
    have ha : additionalCompressedOf bigSettings = ⟨1, 1⟩ := by decide
    rw [hres, hcost, ht, ha]
    norm_num [JsNumber.toQ]

/-- C4 (amended).  After a triggered truncation pass, the recomputed
cost of the result is at most the larger of the starting-window cost
and targetTokens + additionalCompressed: the ending window never
exceeds its budgets, and only the always-retained starting window (at
least the first turn, kept regardless of size) can push the result
past targetTokens + additionalCompressed; a turn that does not fit
even compressed is excluded, never included over budget. -/
theorem autosave_budget_bound (tc : String → Nat) (s : AutosaveSettings)
    (history : List Content) (tag : Option String) (fresh : String)
    (hta : s.truncateafter.wf)
    (htb : ∀ q ∈ s.truncateby, q.wf)
    (hac : ∀ q ∈ s.additionalcompressed, q.wf)
    (hpos : (jsNat 0).ble (additionalCompressedOf s) = true)
    (hne : history ≠ [])
    (htrig : s.truncateafter.blt (jsNat (countHistoryTokens tc history)) = true) :
    ((countHistoryTokens tc (autoSaveChatIfEnabled tc (some s) history tag fresh).1 : ℚ))
      ≤ max ((startLoop s.minstartingtokens
            (history.map (fun c => (c, countContentTokens tc c))) [] 0).2 : ℚ)
          ((targetTokensOf s).toQ + (additionalCompressedOf s).toQ) := by
  have htw : (targetTokensOf s).wf := targetTokensOf_wf hta htb
  have haw : (additionalCompressedOf s).wf := additionalCompressedOf_wf hac
  have hE : history.isEmpty = false := by
    cases history
    · exact absurd rfl hne
    · rfl
  have hres : (autoSaveChatIfEnabled tc (some s) history tag fresh).1
      = truncatePass tc s history := by
    simp only [autoSaveChatIfEnabled, hE, Bool.false_eq_true, if_false, htrig, if_true]
  rw [hres]
  unfold truncatePass
  set tokenCounts := history.map (fun c => (c, countContentTokens tc c)) with htcs
  set SK := startLoop s.minstartingtokens tokenCounts [] 0 with hSK
  set K : Nat := SK.2 with hK
  set T : ℚ := (targetTokensOf s).toQ with hT
  set A : ℚ := (additionalCompressedOf s).toQ with hA
  have hconsAll : ∀ p ∈ tokenCounts, p.2 = countContentTokens tc p.1 := by
    intro p hp
    rw [htcs] at hp
    obtain ⟨c, _, rfl⟩ := List.mem_map.mp hp
    rfl
  have hstart : countHistoryTokens tc SK.1 = K := by
    rw [hSK, hK]
    exact startLoop_cost tc s.minstartingtokens tokenCounts [] 0 hconsAll (by rfl)
  have hwfB : ((targetTokensOf s).sub (jsNat K)).wf :=
    JsNumber.wf_sub htw (JsNumber.wf_jsNat _)
  have hwfBP : (((targetTokensOf s).sub (jsNat K)).add (additionalCompressedOf s)).wf :=
    JsNumber.wf_add hwfB haw
  have hconsMid : ∀ p ∈ (tokenCounts.drop SK.1.length).reverse,
      p.2 = countContentTokens tc p.1 := by
    intro p hp
    exact hconsAll p (List.mem_of_mem_drop (List.mem_reverse.mp hp))
  have hend := endLoopRev_cost_le tc (compressionCharLimitOf s)
    ((targetTokensOf s).sub (jsNat K))
    (((targetTokensOf s).sub (jsNat K)).add (additionalCompressedOf s))
    hwfB hwfBP ((tokenCounts.drop SK.1.length).reverse) 0 hconsMid
  have hBtoQ : ((targetTokensOf s).sub (jsNat K)).toQ = T - (K : ℚ) := by
    rw [JsNumber.toQ_sub htw (JsNumber.wf_jsNat _), JsNumber.toQ_jsNat, hT]
  have hBPtoQ : (((targetTokensOf s).sub (jsNat K)).add (additionalCompressedOf s)).toQ
      = T - (K : ℚ) + A := by
    rw [JsNumber.toQ_add hwfB haw, hBtoQ, hA]
  have hApos : (0 : ℚ) ≤ A := by
    have := (JsNumber.ble_iff (JsNumber.wf_jsNat 0) haw).mp hpos
    rw [JsNumber.toQ_jsNat] at this
    simpa [hA] using this
  rw [hBtoQ, hBPtoQ] at hend
  simp only [Nat.cast_zero, zero_add] at hend
  rw [countHistoryTokens_append, countHistoryTokens_reverse, hstart]
  have hmax2 : max (T - (K : ℚ)) (T - (K : ℚ) + A) = T - (K : ℚ) + A :=
    max_eq_right (by linarith)
  rw [hmax2] at hend
  push_cast
  rcases le_total (T - (K : ℚ) + A) 0 with hc | hc
  · have : (countHistoryTokens tc (endLoopRev tc (compressionCharLimitOf s)
        ((targetTokensOf s).sub (jsNat K))
        (((targetTokensOf s).sub (jsNat K)).add (additionalCompressedOf s))
        ((tokenCounts.drop SK.1.length).reverse) 0) : ℚ) ≤ 0 := by
      rw [max_eq_left hc] at hend
      exact hend
    exact le_trans (by linarith) (le_max_left _ _)
  · rw [max_eq_right hc] at hend
    exact le_trans (by linarith) (le_max_right _ _)

/-- Witness for C4 (amended) at the concrete orphan input, where the
truncation pass triggers. -/
theorem autosave_budget_bound_witness :
    ((countHistoryTokens strLen
        (autoSaveChatIfEnabled strLen (some orphanSettings) orphanHistory none "t").1 : ℚ))
      ≤ max ((startLoop orphanSettings.minstartingtokens
            (orphanHistory.map (fun c => (c, countContentTokens strLen c))) [] 0).2 : ℚ)
          ((targetTokensOf orphanSettings).toQ + (additionalCompressedOf orphanSettings).toQ) :=
  autosave_budget_bound strLen orphanSettings orphanHistory none "t"
    (by decide) (by intro q hq; cases hq) (by intro q hq; cases hq; decide)
    (by decide) (by decide) (by decide)

/-- C8.  Whenever the history cost is at most compressafter and the
configuration satisfies the documented constraint
compressafter ≤ truncateafter, the compaction core leaves the history
unchanged and never replaces an existing session tag. -/
theorem autosave_noop_below_threshold (tc : String → Nat) (s : AutosaveSettings)
    (history : List Content) (tag : Option String) (fresh : String)
    (hca : s.compressafter.wf) (hta : s.truncateafter.wf)
    (h1 : (jsNat (countHistoryTokens tc history)).ble s.compressafter = true)
    (h2 : s.compressafter.ble s.truncateafter = true) :
    (autoSaveChatIfEnabled tc (some s) history tag fresh).1 = history
    ∧ ∀ t0, tag = some t0 → (autoSaveChatIfEnabled tc (some s) history tag fresh).2 = some t0 := by
  have hcost : ((countHistoryTokens tc history : ℚ)) ≤ s.truncateafter.toQ := by
    have ha := (JsNumber.ble_iff (JsNumber.wf_jsNat _) hca).mp h1
    have hb := (JsNumber.ble_iff hca hta).mp h2
    rw [JsNumber.toQ_jsNat] at ha
    linarith
  have hblt : s.truncateafter.blt (jsNat (countHistoryTokens tc history)) = false := by
    rw [Bool.eq_false_iff]
    intro hcontra
    have := (JsNumber.blt_iff hta (JsNumber.wf_jsNat _)).mp hcontra
    rw [JsNumber.toQ_jsNat] at this
    linarith
  by_cases hE : history.isEmpty = true
  · constructor
    · simp [autoSaveChatIfEnabled, hE]
    · intro t0 htag
      simp [autoSaveChatIfEnabled, hE, htag]
  · rw [Bool.not_eq_true] at hE
    constructor
    · simp [autoSaveChatIfEnabled, hE, hblt]
    · intro t0 htag
      simp [autoSaveChatIfEnabled, hE, hblt, htag]

/-- Witness for C8 at a concrete under-threshold history with an
existing tag. -/
theorem autosave_noop_below_threshold_witness :
    ((autoSaveChatIfEnabled strLen (some orphanSettings)
        [⟨"u", some [Part.text "a"]⟩] (some "keep") "t").1 = [⟨"u", some [Part.text "a"]⟩])
    ∧ ∀ t0, (some "keep" : Option String) = some t0 →
        (autoSaveChatIfEnabled strLen (some orphanSettings)
          [⟨"u", some [Part.text "a"]⟩] (some "keep") "t").2 = some t0 :=
  autosave_noop_below_threshold strLen orphanSettings [⟨"u", some [Part.text "a"]⟩]
    (some "keep") "t" (by decide) (by decide) (by decide) (by decide)

/-- C3.  A single tool call whose arguments arrive in three fragments,
followed by the tool_calls finish chunk, yields exactly one finalized
functionCall part whose arguments are the concatenation of the
fragments parsed, and leaves the accumulator empty, so a subsequent
independent stream starts from empty state. -/
theorem toGeminiResponse_stream_reassembly
    (parse : String → Option JValue) (X N a b c : String) (v : JValue)
    (hX : X ≠ "") (hparse : parse (a ++ b ++ c) = some v) :
    runStream parse
      [⟨some [⟨none, some ⟨none, some [⟨0, some X, some ⟨some N, some a⟩⟩]⟩, none⟩]⟩,
       ⟨some [⟨none, some ⟨none, some [⟨0, none, some ⟨none, some b⟩⟩]⟩, none⟩]⟩,
       ⟨some [⟨none, some ⟨none, some [⟨0, none, some ⟨none, some c⟩⟩]⟩, none⟩]⟩,
       ⟨some [⟨none, some ⟨none, none⟩, some "tool_calls"⟩]⟩] []
      = .ok ([⟨[], none, "", []⟩, ⟨[], none, "", []⟩, ⟨[], none, "", []⟩,
              ⟨[RPart.functionCall ⟨N, v, X⟩], some "tool_calls", "", [⟨N, v, X⟩]⟩], []) := by
  have hXb : (X == "") = false := beq_eq_false_iff_ne.mpr hX
  have h1 : toGeminiResponse parse
      ⟨some [⟨none, some ⟨none, some [⟨0, some X, some ⟨some N, some a⟩⟩]⟩, none⟩]⟩ []
      = .ok (⟨[], none, "", []⟩, [(0, ⟨X, N, a⟩)]) := by
    by_cases hN : N = "" <;> by_cases hA : a = "" <;>
      simp [toGeminiResponse, foldDeltaToolCalls, applyDeltaTC, accGet, accSet,
        jsFinish, hXb, hN, hA, string_empty_append]
  have h2 : toGeminiResponse parse
      ⟨some [⟨none, some ⟨none, some [⟨0, none, some ⟨none, some b⟩⟩]⟩, none⟩]⟩ [(0, ⟨X, N, a⟩)]
      = .ok (⟨[], none, "", []⟩, [(0, ⟨X, N, a ++ b⟩)]) := by
    by_cases hB : b = "" <;>
      simp [toGeminiResponse, foldDeltaToolCalls, applyDeltaTC, accGet, accSet,
        jsFinish, hB, String.append_empty]
  have h3 : toGeminiResponse parse
      ⟨some [⟨none, some ⟨none, some [⟨0, none, some ⟨none, some c⟩⟩]⟩, none⟩]⟩ [(0, ⟨X, N, a ++ b⟩)]
      = .ok (⟨[], none, "", []⟩, [(0, ⟨X, N, a ++ b ++ c⟩)]) := by
    by_cases hC : c = "" <;>
      simp [toGeminiResponse, foldDeltaToolCalls, applyDeltaTC, accGet, accSet,
        jsFinish, hC, String.append_empty]
  have h4 : toGeminiResponse parse
      ⟨some [⟨none, some ⟨none, none⟩, some "tool_calls"⟩]⟩ [(0, ⟨X, N, a ++ b ++ c⟩)]
      = .ok (⟨[RPart.functionCall ⟨N, v, X⟩], some "tool_calls", "", [⟨N, v, X⟩]⟩, []) := by
    simp [toGeminiResponse, foldDeltaToolCalls, finalizePartialCalls, jsFinish, hparse]
  simp [runStream, h1, h2, h3, h4]

/-- Witness for C3 at a concrete three-fragment stream. -/
theorem toGeminiResponse_stream_reassembly_witness :
    ("id1" ≠ "")
    ∧ ((fun s => if s = "xyz" then some (JValue.num 7) else none) ("x" ++ "y" ++ "z")
        = some (JValue.num 7))
    ∧ runStream (fun s => if s = "xyz" then some (JValue.num 7) else none)
        [⟨some [⟨none, some ⟨none, some [⟨0, some "id1", some ⟨some "f", some "x"⟩⟩]⟩, none⟩]⟩,
         ⟨some [⟨none, some ⟨none, some [⟨0, none, some ⟨none, some "y"⟩⟩]⟩, none⟩]⟩,
         ⟨some [⟨none, some ⟨none, some [⟨0, none, some ⟨none, some "z"⟩⟩]⟩, none⟩]⟩,
         ⟨some [⟨none, some ⟨none, none⟩, some "tool_calls"⟩]⟩] []
        = .ok ([⟨[], none, "", []⟩, ⟨[], none, "", []⟩, ⟨[], none, "", []⟩,
                ⟨[RPart.functionCall ⟨"f", JValue.num 7, "id1"⟩], some "tool_calls", "",
                 [⟨"f", JValue.num 7, "id1"⟩]⟩], []) :=
  ⟨by decide, by decide,
   toGeminiResponse_stream_reassembly (fun s => if s = "xyz" then some (JValue.num 7) else none)
     "id1" "f" "x" "y" "z" (JValue.num 7) (by decide) (by decide)⟩

/-- C5 (code bug evidence).  The accumulator is a single module-global
table: two interleaved streams (stream A contributes id callA, name
fnA and fragment argA at index 0; stream B then contributes id callB,
name fnB and fragment argB at the same index through the same state),
and the finish of stream A finalizes one corrupted call mixing both
streams (stream B id and name, concatenated arguments of both). -/
theorem partialToolCalls_global_crosstalk :
    runStream (fun s => some (JValue.str s))
      [⟨some [⟨none, some ⟨none, some [⟨0, some "callA", some ⟨some "fnA", some "argA"⟩⟩]⟩, none⟩]⟩,
       ⟨some [⟨none, some ⟨none, some [⟨0, some "callB", some ⟨some "fnB", some "argB"⟩⟩]⟩, none⟩]⟩,
       ⟨some [⟨none, some ⟨none, none⟩, some "tool_calls"⟩]⟩] []
      = .ok ([⟨[], none, "", []⟩, ⟨[], none, "", []⟩,
              ⟨[RPart.functionCall ⟨"fnB", JValue.str "argAargB", "callB"⟩], some "tool_calls", "",
               [⟨"fnB", JValue.str "argAargB", "callB"⟩]⟩], []) := rfl

/-- C10.  A streamed delta carrying a function name at an index for
which no chunk has yet supplied an id dereferences a missing
accumulator entry: toGeminiResponse throws instead of returning a
result, so the streaming inbound path is not total. -/
theorem toGeminiResponse_name_before_id_throws :
    toGeminiResponse (fun s => some (JValue.str s))
      ⟨some [⟨none, some ⟨none, some [⟨0, none, some ⟨some "f", none⟩⟩]⟩, none⟩]⟩ []
      = .error "TypeError: cannot set name of undefined" := rfl

/-- C6 counterexample.  For a wire response with a missing choices
array, and for one with an empty choices array, toGeminiResponse
throws (a TypeError in the source) instead of returning a result with
an empty text part. -/
theorem toGeminiResponse_malformed_choices_throws :
    (toGeminiResponse (fun s => some (JValue.str s)) ⟨none⟩ []
        = .error "TypeError: cannot read choices 0 of undefined")
    ∧ (toGeminiResponse (fun s => some (JValue.str s)) ⟨some []⟩ []
        = .error "TypeError: cannot use in operator on undefined") :=
  ⟨rfl, rfl⟩

/-- C6 (amended).  For a choice whose message has no content and no
tool calls, toGeminiResponse does not throw: it returns a result with
empty top-level text and an empty parts list (the source pushes no
text part at all rather than an empty one), leaving the accumulator
untouched, for any finish reason other than the tool-call finish
marker. -/
theorem toGeminiResponse_missing_content_tolerated
    (parse : String → Option JValue) (acc : List (Nat × PartialToolCall))
    (d : Option WireDelta) (fr : Option String)
    (hfr : fr ≠ some "tool_calls") :
    toGeminiResponse parse ⟨some [⟨some ⟨none, none⟩, d, fr⟩]⟩ acc
      = .ok (⟨[], jsFinish fr, "", []⟩, acc) := by
  have hb : (fr == some "tool_calls") = false := beq_eq_false_iff_ne.mpr hfr
  simp [toGeminiResponse, msgToolCalls, hb]

/-- Witness for C6 (amended) at a concrete content-free message. -/
theorem toGeminiResponse_missing_content_tolerated_witness :
    ((some "stop" : Option String) ≠ some "tool_calls")
    ∧ toGeminiResponse (fun s => some (JValue.str s)) ⟨some [⟨some ⟨none, none⟩, none, some "stop"⟩]⟩ []
        = .ok (⟨[], jsFinish (some "stop"), "", []⟩, []) :=
  ⟨by decide,
   toGeminiResponse_missing_content_tolerated (fun s => some (JValue.str s)) [] none
     (some "stop") (by decide)⟩

/-- C7 counterexample.  At a history whose only turn carries an
unmatched functionResponse with a nonempty name, the render defaults
the synthesized tool-call name to that response name, not to the empty
string as the claim states (the arguments do default to the empty
object). -/
theorem toGeminiRequest_unmatched_uses_response_name :
    toGeminiRequest [⟨"tool", some [Part.functionResponse ⟨"Z", "myTool", []⟩]⟩]
      = [Msg.assistant none [⟨"Z", "myTool", "\x7b\x7d"⟩],
         Msg.tool "Z" (stringifyPairs [])]
    ∧ ("myTool" : String) ≠ "" := by
  exact ⟨by decide, by decide⟩

end GeminiCliHooks
